import Mathlib

/-!
Verification of the PlanWise Coach core: plan versioning, context filtering,
turn orchestration, session reset, week ordering in the plan card, and
anonymous client-id management.  Definitions are shallow embeddings of the
repository's code (TypeScript frontend sources and the Python snippets in the
backend README); where a backend body is not in the repository tree, the
definition is modelled from the specification and marked as such.
-/

namespace PlanWise

/-- Message role, per the data model (`user` | `assistant`). -/
inductive Role where
  | user
  | assistant
deriving DecidableEq, Repr

/-- A stored message: client id, role, content.  Insertion order is the list
order of the store; the creation timestamp is not modelled separately since
every property in scope depends only on insertion order. -/
structure Message where
  client_id : String
  role : Role
  content : String
deriving DecidableEq, Repr

/-- Plan metadata, after `PlanMeta` in `frontend/app/api.ts`. -/
structure PlanMeta where
  goal : Option String := none
  race_date : Option String := none
  phase : Option String := none
  weekly_km_target : Option Rat := none
deriving DecidableEq, Repr

/-- Plan constraints, after `PlanConstraints` in `frontend/app/api.ts`. -/
structure PlanConstraints where
  max_weekly_increase_pct : Option Rat := none
  min_rest_days : Option Nat := none
deriving DecidableEq, Repr

/-- A training session, after `Session` in `frontend/app/api.ts`.  The source
field `structure` is a Lean keyword and is embedded as `structure_text`. -/
structure SessionRec where
  date : Option String := none
  type : String := ""
  distance_km : Option Rat := none
  time_min : Option Rat := none
  intensity : Option String := none
  rpe : Option Nat := none
  structure_text : Option String := none
  notes : Option String := none
  day_of_week : Option String := none
  is_rest_day : Option Bool := none
deriving DecidableEq, Repr

/-- A week of the plan, after `WeekPlan` in `frontend/app/api.ts`. -/
structure WeekPlan where
  mileage_target : Option Rat := none
  sessions : List SessionRec := []
deriving DecidableEq, Repr

/-- A plan document, after `PlanDoc` in `frontend/app/api.ts`.  The `weeks`
record (string-keyed object) is embedded as an entry list in insertion
order, matching what `Object.entries` yields. -/
structure PlanDoc where
  meta : PlanMeta := {}
  constraints : Option PlanConstraints := none
  weeks : List (String × WeekPlan) := []
deriving DecidableEq, Repr

/-- A stored plan version row, after the `Plan` ORM model used by
`create_new_plan` in the backend README: client id, document, version
number, `is_current` flag.  The creation timestamp is not modelled. -/
structure PlanVersion where
  client_id : String
  doc : PlanDoc
  version : Nat
  is_current : Bool
deriving DecidableEq, Repr

/-- The persistent store: message rows and plan-version rows, each in
insertion order. -/
structure DB where
  messages : List Message
  plans : List PlanVersion
deriving DecidableEq, Repr

/-- The empty store. -/
def emptyDB : DB := ⟨[], []⟩

/-! ## Anonymous client-id management (`lib/anon-id.ts`) -/

/-- A browser-side localStorage, modelled as an association list; only
`getItem`/`setItem` observations matter to the claims. -/
structure Browser where
  store : List (String × String)
deriving DecidableEq, Repr

/-- `localStorage.getItem`. -/
def lsGet (s : List (String × String)) (k : String) : Option String :=
  (s.find? (fun e => e.1 == k)).map (fun e => e.2)

/-- `localStorage.setItem`: replaces any binding of the key. -/
def lsSet (s : List (String × String)) (k v : String) : List (String × String) :=
  (k, v) :: s.filter (fun e => !(e.1 == k))

/-- `getAnonId` from `lib/anon-id.ts`.  `win = none` models
`typeof window === "undefined"` (SSR); `freshUUID` is the value
`crypto.randomUUID()` would mint if a new id is needed.  Returns the
updated browser state and the id. -/
def getAnonId (win : Option Browser) (freshUUID : String) : Option Browser × String :=
  match win with
  | none => (none, "ssr-placeholder")
  | some b =>
    match lsGet b.store "anon_client_id" with
    | some clientId => (some b, clientId)
    | none => (some ⟨lsSet b.store "anon_client_id" freshUUID⟩, freshUUID)

/-- `resetAnonId` from `lib/anon-id.ts`: always mints and stores a new id
(outside a browser it returns the SSR placeholder without touching storage). -/
def resetAnonId (win : Option Browser) (freshUUID : String) : Option Browser × String :=
  match win with
  | none => (none, "ssr-placeholder")
  | some b => (some ⟨lsSet b.store "anon_client_id" freshUUID⟩, freshUUID)

/-! ## Plan card week ordering (`components/plan-card.tsx`) -/

/-- Strict lexicographic order on character lists (by code point). -/
def charListLt : List Char → List Char → Bool
  | _, [] => false
  | [], _ :: _ => true
  | a :: as, b :: bs => a < b || (a == b && charListLt as bs)

/-- The comparator `([a], [b]) => a.localeCompare(b)` of `PlanCard`, as a
strict order on keys.  For the ASCII `week_<n>` keys at issue the default
locale collation coincides with code-point lexicographic order (the keys
share the prefix up to the digits, and digits collate in code-point order),
so `localeCompare(a, b) < 0` is embedded as code-point `a < b`. -/
def keyLt (a b : String) : Bool := charListLt a.data b.data

/-- Insert one entry into a list already sorted by `keyLt` on the key. -/
def insertByKey (x : String × WeekPlan) : List (String × WeekPlan) → List (String × WeekPlan)
  | [] => [x]
  | y :: ys => if keyLt x.1 y.1 then x :: y :: ys else y :: insertByKey x ys

/-- `Object.entries(plan.weeks).sort(([a], [b]) => a.localeCompare(b))` from
`PlanCard` (plan-card.tsx line 85): sort the week entries by key under the
locale comparator.  Keys are distinct record keys, so any comparison sort
yields this same order; a stable insertion sort is used. -/
def sortWeeks (weeks : List (String × WeekPlan)) : List (String × WeekPlan) :=
  weeks.foldr insertByKey []

/-- The week identifiers of a ten-week plan, in chronological order, as the
generating model emits them (`week_1` … `week_10`). -/
def tenWeekKeys : List String :=
  ["week_1", "week_2", "week_3", "week_4", "week_5",
   "week_6", "week_7", "week_8", "week_9", "week_10"]

/-- A ten-week plan's `weeks` entries in chronological insertion order. -/
def tenWeeks : List (String × WeekPlan) :=
  tenWeekKeys.map (fun k => (k, {}))

/-! ## Version Manager (backend README, `create_new_plan`) -/

/-- The plan rows stored for one client, in insertion order. -/
def plansFor (db : DB) (c : String) : List PlanVersion :=
  db.plans.filter (fun p => p.client_id == c)

/-- The highest version number stored for a client, `0` if none exists. -/
def maxVersionFor (db : DB) (c : String) : Nat :=
  ((plansFor db c).map (fun p => p.version)).foldr max 0

/-- Modelled from the spec: `get_next_version` is called by the
`create_new_plan` snippet in the backend README but its body is not in the
repository tree.  Per the spec's Version Manager algorithm, the commit reads
the highest existing version number for the client (0 if none) and the new
row gets `previous_max + 1`. -/
def get_next_version (db : DB) (c : String) : Nat :=
  maxVersionFor db c + 1

/-- The bulk update `db.query(Plan).filter(client_id == c).update({"is_current": False})`
applied to one row: clears `is_current` on every row of the client. -/
def clearCurrent (c : String) (p : PlanVersion) : PlanVersion :=
  if p.client_id == c then { p with is_current := false } else p

/-- The row inserted by `create_new_plan`. -/
def newPlanRow (db : DB) (c : String) (d : PlanDoc) : PlanVersion :=
  { client_id := c, doc := d, version := get_next_version db c, is_current := true }

/-- `create_new_plan` from the backend README snippet: mark every existing
plan row of the client as not current, then insert a new row with the next
version number and `is_current = true`.  (The snippet computes the version
after the update; the update does not change version numbers, so reading it
from the pre-state is the same value.)  Returns the new store and the
inserted row. -/
def create_new_plan (db : DB) (c : String) (d : PlanDoc) : DB × PlanVersion :=
  let cleared := db.plans.map (clearCurrent c)
  let np := newPlanRow db c d
  ({ db with plans := cleared ++ [np] }, np)

/-- `get_current`: the single row of the client with `is_current = true`, or
absent. -/
def get_current (db : DB) (c : String) : Option PlanVersion :=
  db.plans.find? (fun p => p.client_id == c && p.is_current)

/-- One commit step: apply `create_new_plan` for one (client, document) pair. -/
def commitStep (db : DB) (op : String × PlanDoc) : DB :=
  (create_new_plan db op.1 op.2).1

/-- The store reached from empty by a sequence of commits. -/
def applyCommits (ops : List (String × PlanDoc)) : DB :=
  ops.foldl commitStep emptyDB

/-! ## Message Store -/

/-- `append(client_id, role, content)`: immutable insert at the end of the
message log. -/
def appendMsg (db : DB) (c : String) (r : Role) (content : String) : DB :=
  { db with messages := db.messages ++ [⟨c, r, content⟩] }

/-- `list(client_id)`: the client's messages in insertion order. -/
def listMessages (db : DB) (c : String) : List Message :=
  db.messages.filter (fun m => m.client_id == c)

/-! ## Context Filter (backend README, message filtering snippet) -/

/-- `pat` occurs at the head of `s`. -/
def leadMatch : List Char → List Char → Bool
  | [], _ => true
  | _ :: _, [] => false
  | a :: pa, b :: pb => a == b && leadMatch pa pb

/-- `pat` occurs somewhere in `s` (Python's `pat in s`). -/
def subMatch (pat : List Char) : List Char → Bool
  | [] => leadMatch pat []
  | c :: cs => leadMatch pat (c :: cs) || subMatch pat cs

/-- The message is assistant-authored (`msg.role == "assistant"`). -/
def isAssistant (m : Message) : Bool :=
  match m.role with
  | Role.assistant => true
  | Role.user => false

/-- The exclusion condition from the backend README filtering snippet:
skip the message when its lowercased content contains `"error"` or
`"sorry"`, or it is assistant-authored and shorter than 50 characters, or it
is assistant-authored and its uppercased content contains `"PLAN"`.
Lower/upper-casing is applied per character of the content (the substrings
tested are ASCII, where Python's case mapping and `Char.toLower`/`Char.toUpper`
agree). -/
def excludes (m : Message) : Bool :=
  subMatch "error".data (m.content.data.map Char.toLower) ||
  subMatch "sorry".data (m.content.data.map Char.toLower) ||
  (isAssistant m && decide (m.content.length < 50)) ||
  (isAssistant m && subMatch "PLAN".data (m.content.data.map Char.toUpper))

/-- The messages of a history that survive the exclusion rules, in order. -/
def qualifying (msgs : List Message) : List Message :=
  msgs.filter (fun m => !excludes m)

/-- Modelled from the spec: the Context Filter's `select` body is not in the
repository tree (only its exclusion condition appears, in the backend
README).  Per the spec, exclusion is evaluated per message before the limit
is applied, and the result is the at most `limit` most recent qualifying
messages in oldest-first order — the final `limit`-length suffix of the
qualifying subsequence. -/
def selectMessages (msgs : List Message) (limit : Nat) : List Message :=
  let q := qualifying msgs
  q.drop (q.length - limit)

/-- `select(client_id, limit)` over the store. -/
def select (db : DB) (c : String) (limit : Nat) : List Message :=
  selectMessages (listMessages db c) limit

/-! ## Generation settings and Turn Orchestrator -/

/-- Generation parameters of the external call. -/
structure GenSettings where
  temperature : Rat
  max_tokens : Nat
  timeout_seconds : Nat
deriving DecidableEq, Repr

/-- Modelled from the spec: `llm.py` is not in the repository tree.  The
backend README's AI Model Settings and the `chat_to_plan` snippet in
LearningOverview.md fix temperature 0.3 and max_tokens 4000, and the README
fixes the 90-second timeout. -/
def genSettings : GenSettings :=
  { temperature := 3 / 10, max_tokens := 4000, timeout_seconds := 90 }

/-- A generation request: role-tagged messages plus the fixed settings. -/
structure GenRequest where
  reqMessages : List (Role × String)
  settings : GenSettings
deriving DecidableEq, Repr

/-- Modelled from the spec: the `chat_to_plan` wrapper (LearningOverview.md
snippet) invokes the external model on the assembled messages; every
invocation carries the fixed `genSettings`. -/
def chat_to_plan (msgs : List (Role × String)) : GenRequest :=
  { reqMessages := msgs, settings := genSettings }

/-- Outcome of one external generation call, as the orchestrator sees it:
timed out, unparseable, a plain conversational reply, or a reply carrying an
embedded plan payload. -/
inductive GenOutcome where
  | timeout
  | malformed
  | reply (text : String)
  | payload (text : String) (d : PlanDoc)
deriving DecidableEq, Repr

/-- Modelled from the spec: the structural validation of a generated payload
(reject when required meta/weeks fields are absent or malformed).  In this
typed embedding `meta` is always present, so the check is that the plan has
at least one week. -/
def planValid (d : PlanDoc) : Bool :=
  !d.weeks.isEmpty

/-- The turn fails when generation timed out, was malformed, or produced a
payload that fails schema validation. -/
def turnFails (g : GenOutcome) : Bool :=
  match g with
  | GenOutcome.timeout => true
  | GenOutcome.malformed => true
  | GenOutcome.reply _ => false
  | GenOutcome.payload _ d => !planValid d

/-- The user-facing failure reply surfaced on a failed turn.  The spec fixes
its existence and role, not its wording. -/
def failureReply : String :=
  "Sorry, something went wrong while generating your plan. Please try again."

/-- Result of `handle_turn`: reply text, whether the plan was updated, and
the plan document if one was committed. -/
structure TurnResult where
  reply : String
  plan_updated : Bool
  plan : Option PlanDoc
deriving DecidableEq, Repr

/-- Modelled from the spec: the orchestrating `/chat` handler is not in the
repository tree.  Steps per spec §4.4: (1) append the user message before
generation; (6) on a valid payload, commit through the Version Manager and
report `plan_updated = true`; with no payload, touch nothing and report
`false`; (7) append the assistant reply; (8) on timeout, malformed response
or validation failure, commit nothing, append a user-facing failure reply,
and report `plan_updated = false`.  The generation outcome is passed in as
`g`. -/
def handle_turn (db : DB) (c : String) (userText : String) (g : GenOutcome) :
    DB × TurnResult :=
  let db1 := appendMsg db c Role.user userText
  match g with
  | GenOutcome.timeout =>
      (appendMsg db1 c Role.assistant failureReply, ⟨failureReply, false, none⟩)
  | GenOutcome.malformed =>
      (appendMsg db1 c Role.assistant failureReply, ⟨failureReply, false, none⟩)
  | GenOutcome.reply t =>
      (appendMsg db1 c Role.assistant t, ⟨t, false, none⟩)
  | GenOutcome.payload t d =>
      if planValid d then
        let db2 := (create_new_plan db1 c d).1
        (appendMsg db2 c Role.assistant t, ⟨t, true, some d⟩)
      else
        (appendMsg db1 c Role.assistant failureReply, ⟨failureReply, false, none⟩)

/-! ## Session Reset -/

/-- Modelled from the spec: the `DELETE /session/{client_id}` handler body is
not in the repository tree.  Per spec §4.5 and the backend README, reset
deletes every message row and every plan row of the client and returns the
two deletion counts. -/
def reset (db : DB) (c : String) : DB × Nat × Nat :=
  let mdel := (db.messages.filter (fun m => m.client_id == c)).length
  let pdel := (db.plans.filter (fun p => p.client_id == c)).length
  (⟨db.messages.filter (fun m => !(m.client_id == c)),
    db.plans.filter (fun p => !(p.client_id == c))⟩, mdel, pdel)

/-! ## Concrete fixtures used by witnesses -/

/-- A one-week plan document. -/
def examplePlan : PlanDoc := { weeks := [("week_1", {})] }

/-- A two-week plan document. -/
def examplePlan2 : PlanDoc := { weeks := [("week_1", {}), ("week_2", {})] }

/-- Three commits: two for client `c1`, one for client `c2`. -/
def wOps : List (String × PlanDoc) :=
  [("c1", examplePlan), ("c1", examplePlan2), ("c2", examplePlan)]

/-- The row that is current for `c1` after `wOps`. -/
def wRow : PlanVersion := ⟨"c1", examplePlan2, 2, true⟩

/-- The demoted first row of `c1` after a further commit on top of `wOps`. -/
def wRowOld : PlanVersion := ⟨"c1", examplePlan, 1, false⟩

/-- A 15-message history for client `c1` of which exactly three match the
exclusion rules: one user message containing "error", one short assistant
acknowledgement, and one assistant message containing "PLAN". -/
def hist15 : List Message :=
  [⟨"c1", Role.user, "I want an 8-week half marathon plan"⟩,
   ⟨"c1", Role.assistant, "Great goal. Tell me about your current weekly mileage and schedule."⟩,
   ⟨"c1", Role.user, "I currently run about 30 km per week over four days."⟩,
   ⟨"c1", Role.assistant, "Thanks. Do you have a race date in mind, and any recent injuries?"⟩,
   ⟨"c1", Role.user, "The race is in ten weeks and I am healthy right now."⟩,
   ⟨"c1", Role.assistant, "Sounds good."⟩,
   ⟨"c1", Role.user, "Please include two quality workouts each week."⟩,
   ⟨"c1", Role.assistant, "I will balance intervals and tempo work with easy running and rest days."⟩,
   ⟨"c1", Role.user, "There was an error in my last request, please ignore it."⟩,
   ⟨"c1", Role.user, "Can you make Sunday the long run day?"⟩,
   ⟨"c1", Role.assistant, "Sure thing, Sunday long runs it is. I will keep Saturdays easy so you arrive fresh."⟩,
   ⟨"c1", Role.assistant, "Here is the updated PLAN JSON with your requested changes applied to every week."⟩,
   ⟨"c1", Role.user, "How should I pace the tempo segments?"⟩,
   ⟨"c1", Role.assistant, "Aim for a comfortably hard effort around your one-hour race pace for tempo segments."⟩,
   ⟨"c1", Role.user, "Great, thanks for the help so far."⟩]

/-- A store holding exactly the 15-message history. -/
def hist15DB : DB := ⟨hist15, []⟩

/-- The last message of the history; it matches no exclusion rule. -/
def exGood : Message := ⟨"c1", Role.user, "Great, thanks for the help so far."⟩

/-- The ten most recent qualifying messages of `hist15`. -/
def expectedSelect10 : List Message :=
  [⟨"c1", Role.user, "I currently run about 30 km per week over four days."⟩,
   ⟨"c1", Role.assistant, "Thanks. Do you have a race date in mind, and any recent injuries?"⟩,
   ⟨"c1", Role.user, "The race is in ten weeks and I am healthy right now."⟩,
   ⟨"c1", Role.user, "Please include two quality workouts each week."⟩,
   ⟨"c1", Role.assistant, "I will balance intervals and tempo work with easy running and rest days."⟩,
   ⟨"c1", Role.user, "Can you make Sunday the long run day?"⟩,
   ⟨"c1", Role.assistant, "Sure thing, Sunday long runs it is. I will keep Saturdays easy so you arrive fresh."⟩,
   ⟨"c1", Role.user, "How should I pace the tempo segments?"⟩,
   ⟨"c1", Role.assistant, "Aim for a comfortably hard effort around your one-hour race pace for tempo segments."⟩,
   ⟨"c1", Role.user, "Great, thanks for the help so far."⟩]

/-! ## Invariant predicates for the version lineage -/

/-- The shape of one client's plan rows: every row but the last is not
current, and the last row (when present) is current. -/
def Shaped (l : List PlanVersion) : Prop :=
  (∀ p ∈ l.dropLast, p.is_current = false) ∧ (∀ p ∈ l.getLast?, p.is_current = true)

/-- The lineage invariant: for every client, the stored version numbers are
exactly `1, 2, …, k` in insertion order, and only the newest row is current. -/
def Inv (db : DB) : Prop :=
  ∀ c, (plansFor db c).map (fun p => p.version) = List.range' 1 (plansFor db c).length ∧
    Shaped (plansFor db c)

/-! ## Helper lemmas -/

lemma lsGet_lsSet_self (s : List (String × String)) (k v : String) :
    lsGet (lsSet s k v) k = some v := by
  simp [lsGet, lsSet]

lemma filter_pos_of_filter_neg {α : Type} (p : α → Bool) (l : List α) :
    (l.filter (fun a => !(p a))).filter p = [] := by
  induction l with
  | nil => rfl
  | cons a l ih => cases h : p a <;> simp [h, ih]

lemma filter_neg_idem {α : Type} (p : α → Bool) (l : List α) :
    (l.filter (fun a => !(p a))).filter (fun a => !(p a)) =
      l.filter (fun a => !(p a)) := by
  induction l with
  | nil => rfl
  | cons a l ih => cases h : p a <;> simp [h, ih]

/-! ## C8 — week ordering in the plan card -/

/-- C8: the claim that the PlanCard's `localeCompare` sort of week keys
yields chronological order for every set of week identifiers fails as soon
as a plan has ten or more weeks: on keys `week_1 … week_10` the sort places
`week_10` immediately after `week_1`, before `week_2`, so the rendered order
is not the chronological key sequence.  This contradicts the code's own
comment ("Sort weeks chronologically"), so it is a defect of the code. -/
theorem plan_card_week_order_bug :
    (sortWeeks tenWeeks).map Prod.fst =
      ["week_1", "week_10", "week_2", "week_3", "week_4",
       "week_5", "week_6", "week_7", "week_8", "week_9"] ∧
    ¬ (sortWeeks tenWeeks).map Prod.fst = tenWeekKeys := by
  decide

/-! ## C10 — anonymous client-id round trip -/

/-- C10: outside a browser both functions return the constant
`"ssr-placeholder"` without touching storage; in a browser, a first call to
`getAnonId` with no stored id mints and stores the fresh id; a repeated
`getAnonId` returns the same state and id regardless of the fresh value
offered; and after `resetAnonId` stores a new id, `getAnonId` returns that
new id. -/
theorem anon_id_roundtrip :
    (∀ u : String, getAnonId none u = (none, "ssr-placeholder") ∧
      resetAnonId none u = (none, "ssr-placeholder")) ∧
    (∀ (b : Browser) (u : String), lsGet b.store "anon_client_id" = none →
      getAnonId (some b) u = (some ⟨lsSet b.store "anon_client_id" u⟩, u)) ∧
    (∀ (b : Browser) (u v : String),
      getAnonId (getAnonId (some b) u).1 v = getAnonId (some b) u) ∧
    (∀ (b : Browser) (u v : String),
      getAnonId (resetAnonId (some b) u).1 v = ((resetAnonId (some b) u).1, u)) := by
  refine ⟨fun u => ⟨rfl, rfl⟩, fun b u h => by simp [getAnonId, h], ?_, ?_⟩
  · intro b u v
    cases h : lsGet b.store "anon_client_id" with
    | some id => simp [getAnonId, h]
    | none => simp [getAnonId, h, lsGet_lsSet_self]
  · intro b u v
    simp [getAnonId, resetAnonId, lsGet_lsSet_self]

/-- Witness for C10: a first call on an empty storage stores and returns the
fresh id. -/
theorem anon_id_roundtrip_witness :
    getAnonId (some ⟨[]⟩) "id-1" = (some ⟨lsSet [] "anon_client_id" "id-1"⟩, "id-1") :=
  anon_id_roundtrip.2.1 ⟨[]⟩ "id-1" (by decide)

/-! ## C9 — fixed generation parameters -/

/-- C9: every generation request carries the fixed settings — temperature
0.3, max 4000 output tokens, 90-second timeout — and a timeout outcome is
handled as a recoverable failure: `handle_turn` returns a normal result with
`plan_updated = false` and the plan store untouched. -/
theorem generation_parameters (msgs : List (Role × String)) (db : DB) (c text : String) :
    (chat_to_plan msgs).settings = genSettings ∧
    genSettings.temperature = 3 / 10 ∧
    genSettings.max_tokens = 4000 ∧
    genSettings.timeout_seconds = 90 ∧
    (handle_turn db c text GenOutcome.timeout).2.plan_updated = false ∧
    (handle_turn db c text GenOutcome.timeout).1.plans = db.plans :=
  ⟨rfl, rfl, rfl, rfl, rfl, rfl⟩

/-! ## C7 — reset deletes everything and is idempotent -/

/-- C7: `reset` returns the two per-client deletion counts, a second reset
returns zero counts and leaves the store unchanged, and after a reset
`get_current` signals no plan and `list` is empty. -/
theorem reset_idempotent (db : DB) (c : String) :
    (reset db c).2 = ((db.messages.filter (fun m => m.client_id == c)).length,
                      (db.plans.filter (fun p => p.client_id == c)).length) ∧
    (reset (reset db c).1 c).2 = (0, 0) ∧
    (reset (reset db c).1 c).1 = (reset db c).1 ∧
    get_current (reset db c).1 c = none ∧
    listMessages (reset db c).1 c = [] := by
  refine ⟨rfl, ?_, ?_, ?_, ?_⟩
  · simp [reset, filter_pos_of_filter_neg]
  · simp [reset, filter_neg_idem]
  · unfold get_current reset
    rw [List.find?_eq_none]
    intro p hp
    have h2 := List.of_mem_filter hp
    simp only [Bool.not_eq_true'] at h2
    simp [h2]
  · exact filter_pos_of_filter_neg _ _

/-! ## C5 — failed turns commit nothing but are recorded -/

/-- C5: when generation fails (timeout, malformed response, or
schema-validation failure), `handle_turn` leaves the plan store and
`get_current` unchanged, reports `plan_updated = false`, and appends both
the user message and the user-facing failure reply, which then appear at the
end of `list(client_id)`. -/
theorem failed_turn_atomicity (db : DB) (c text : String) (g : GenOutcome)
    (h : turnFails g = true) :
    (handle_turn db c text g).1.plans = db.plans ∧
    get_current (handle_turn db c text g).1 c = get_current db c ∧
    (handle_turn db c text g).2.plan_updated = false ∧
    (handle_turn db c text g).1.messages =
      db.messages ++ [⟨c, Role.user, text⟩, ⟨c, Role.assistant, failureReply⟩] ∧
    listMessages (handle_turn db c text g).1 c =
      listMessages db c ++ [⟨c, Role.user, text⟩, ⟨c, Role.assistant, failureReply⟩] := by
  cases g with
  | timeout =>
      refine ⟨rfl, rfl, rfl, by simp [handle_turn, appendMsg], ?_⟩
      simp [handle_turn, appendMsg, listMessages]
  | malformed =>
      refine ⟨rfl, rfl, rfl, by simp [handle_turn, appendMsg], ?_⟩
      simp [handle_turn, appendMsg, listMessages]
  | reply t => simp [turnFails] at h
  | payload t d =>
      simp only [turnFails, Bool.not_eq_true'] at h
      refine ⟨?_, ?_, ?_, ?_, ?_⟩ <;>
        simp [handle_turn, h, appendMsg, listMessages, get_current]

/-- Witness for C5: a timed-out turn over the empty store updates no plan
and leaves the plan table empty. -/
theorem failed_turn_atomicity_witness :
    (handle_turn emptyDB "c1" "hello" GenOutcome.timeout).2.plan_updated = false ∧
    (handle_turn emptyDB "c1" "hello" GenOutcome.timeout).1.plans = [] :=
  ⟨(failed_turn_atomicity emptyDB "c1" "hello" GenOutcome.timeout (by decide)).2.2.1,
   (failed_turn_atomicity emptyDB "c1" "hello" GenOutcome.timeout (by decide)).1⟩

/-! ## C3 — the exclusion predicate is the OR of the four rules -/

lemma isAssistant_iff (m : Message) : isAssistant m = true ↔ m.role = Role.assistant := by
  cases h : m.role <;> simp [isAssistant, h]

/-- C3: a stored message is dropped by the filter stage exactly when at
least one exclusion rule matches — lowercase content containing "error" or
"sorry" (any role), an assistant message shorter than 50 characters, or an
assistant message whose uppercase content contains "PLAN" — and a message
matching no rule survives the filter stage; no message in `select`'s result
matches any rule. -/
theorem context_filter_exclusion (db : DB) (c : String) (m : Message)
    (hm : m ∈ listMessages db c) :
    (excludes m = true ↔
      (subMatch "error".data (m.content.data.map Char.toLower) = true ∨
       subMatch "sorry".data (m.content.data.map Char.toLower) = true ∨
       (m.role = Role.assistant ∧ m.content.length < 50) ∨
       (m.role = Role.assistant ∧
         subMatch "PLAN".data (m.content.data.map Char.toUpper) = true))) ∧
    (excludes m = false ↔ m ∈ qualifying (listMessages db c)) ∧
    (∀ limit, m ∈ select db c limit → excludes m = false) := by
  refine ⟨?_, ?_, ?_⟩
  · simp only [excludes, Bool.or_eq_true, Bool.and_eq_true, isAssistant_iff,
      decide_eq_true_iff]
    tauto
  · rw [qualifying, List.mem_filter]
    simp [hm, Bool.not_eq_true']
  · intro limit hsel
    have hq : m ∈ qualifying (listMessages db c) :=
      List.mem_of_mem_drop hsel
    have := List.of_mem_filter hq
    simpa [Bool.not_eq_true'] using this

/-- Witness for C3: the final message of the 15-message history matches no
rule, survives the filter stage, and is returned by `select`. -/
theorem context_filter_exclusion_witness :
    (excludes exGood = false ↔ exGood ∈ qualifying (listMessages hist15DB "c1")) ∧
    excludes exGood = false :=
  ⟨(context_filter_exclusion hist15DB "c1" exGood (by decide)).2.1,
   (context_filter_exclusion hist15DB "c1" exGood (by decide)).2.2 10 (by decide)⟩

/-! ## C4 — filter before limit, most-recent qualifying, order preserved -/

/-- C4: `select` returns the `limit`-length suffix of the qualifying
subsequence — so its length is `min limit` the number of qualifying
messages, it is a suffix of the qualifying history (most recent, in
chronological order), it is the whole qualifying history when fewer than
`limit` qualify, and it never contains a message matching an exclusion
rule. -/
theorem select_filter_before_limit (db : DB) (c : String) (limit : Nat) :
    (select db c limit).length = min limit (qualifying (listMessages db c)).length ∧
    select db c limit <:+ qualifying (listMessages db c) ∧
    ((qualifying (listMessages db c)).length ≤ limit →
      select db c limit = qualifying (listMessages db c)) ∧
    (∀ m ∈ select db c limit, excludes m = false) := by
  refine ⟨?_, ?_, ?_, ?_⟩
  · simp only [select, selectMessages, List.length_drop]
    omega
  · exact List.drop_suffix _ _
  · intro h
    simp [select, selectMessages, Nat.sub_eq_zero_of_le h]
  · intro m hm
    have hq : m ∈ qualifying (listMessages db c) := List.mem_of_mem_drop hm
    have := List.of_mem_filter hq
    simpa [Bool.not_eq_true'] using this

/-- Witness for C4: on the 15-message history with 3 excluded messages,
`select` with limit 10 returns exactly the ten most recent qualifying
messages in order, and with limit 12 returns the full qualifying history. -/
theorem select_filter_before_limit_witness :
    select hist15DB "c1" 10 = expectedSelect10 ∧
    select hist15DB "c1" 12 = qualifying (listMessages hist15DB "c1") ∧
    excludes exGood = false :=
  ⟨by decide,
   (select_filter_before_limit hist15DB "c1" 12).2.2.1 (by decide),
   (select_filter_before_limit hist15DB "c1" 10).2.2.2 exGood (by decide)⟩

/-! ## Lineage lemmas for C1 and C2 -/

lemma clearCurrent_client (c : String) (p : PlanVersion) :
    (clearCurrent c p).client_id = p.client_id := by
  unfold clearCurrent
  split <;> rfl

lemma filter_map_clear_eq (c : String) (l : List PlanVersion) :
    (l.map (clearCurrent c)).filter (fun p => p.client_id == c) =
      (l.filter (fun p => p.client_id == c)).map
        (fun p => { p with is_current := false }) := by
  induction l with
  | nil => rfl
  | cons p ps ih =>
    simp only [List.map_cons, List.filter_cons, clearCurrent_client]
    cases hpc : (p.client_id == c) with
    | true => simp [clearCurrent, hpc, ih]
    | false => simp [hpc, ih]

lemma filter_map_clear_ne (c d : String) (h : ¬ c = d) (l : List PlanVersion) :
    (l.map (clearCurrent d)).filter (fun p => p.client_id == c) =
      l.filter (fun p => p.client_id == c) := by
  induction l with
  | nil => rfl
  | cons p ps ih =>
    simp only [List.map_cons, List.filter_cons, clearCurrent_client]
    cases hpc : (p.client_id == c) with
    | true =>
      have hpd : (p.client_id == d) = false := by
        have : p.client_id = c := by simpa using hpc
        simp [this, h]
      simp [clearCurrent, hpd, ih]
    | false => simp [hpc, ih]

lemma plansFor_create_eq (db : DB) (c : String) (d : PlanDoc) :
    plansFor (create_new_plan db c d).1 c =
      (plansFor db c).map (fun p => { p with is_current := false }) ++
        [newPlanRow db c d] := by
  unfold plansFor create_new_plan
  simp [List.filter_append, filter_map_clear_eq, newPlanRow]

lemma plansFor_create_ne (db : DB) (c d : String) (h : ¬ c = d) (doc : PlanDoc) :
    plansFor (create_new_plan db d doc).1 c = plansFor db c := by
  unfold plansFor create_new_plan
  have hnp : ((newPlanRow db d doc).client_id == c) = false := by
    simp [newPlanRow]
    exact fun e => h e.symm
  simp [List.filter_append, filter_map_clear_ne c d h, hnp]

lemma map_version_clear (l : List PlanVersion) :
    (l.map (fun p => { p with is_current := false })).map (fun p => p.version) =
      l.map (fun p => p.version) := by
  simp [List.map_map]

lemma foldr_max_range' (n : Nat) : ∀ s : Nat,
    (List.range' s n).foldr max 0 = if n = 0 then 0 else s + n - 1 := by
  induction n with
  | zero => intro s; rfl
  | succ m ih =>
    intro s
    rw [List.range'_succ, List.foldr_cons, ih (s + 1)]
    cases m with
    | zero => simp
    | succ k =>
      rw [if_neg (Nat.succ_ne_zero k), if_neg (Nat.succ_ne_zero (k + 1))]
      have h1 : s + 1 + (k + 1) - 1 = s + (k + 1) := by omega
      rw [h1, max_eq_right (Nat.le_add_right s (k + 1))]
      omega

lemma maxVersionFor_eq_length (db : DB) (c : String)
    (h : (plansFor db c).map (fun p => p.version) =
      List.range' 1 (plansFor db c).length) :
    maxVersionFor db c = (plansFor db c).length := by
  unfold maxVersionFor
  rw [h, foldr_max_range']
  split <;> omega

lemma inv_empty : Inv emptyDB := by
  intro c
  refine ⟨rfl, ?_, ?_⟩
  · intro p hp
    simp [plansFor, emptyDB] at hp
  · intro p hp
    simp [plansFor, emptyDB] at hp

lemma inv_step (db : DB) (hdb : Inv db) (d : String) (doc : PlanDoc) :
    Inv (create_new_plan db d doc).1 := by
  intro c
  by_cases hc : c = d
  · subst hc
    obtain ⟨hv, _, _⟩ := hdb c
    rw [plansFor_create_eq]
    refine ⟨?_, ?_, ?_⟩
    · have hk : ((plansFor db c).map
            (fun p : PlanVersion => { p with is_current := false }) ++
          [newPlanRow db c doc]).length = (plansFor db c).length + 1 := by
        simp
      rw [hk, List.map_append, map_version_clear, hv, List.range'_concat]
      have hnp : (newPlanRow db c doc).version = (plansFor db c).length + 1 := by
        simp [newPlanRow, get_next_version, maxVersionFor_eq_length db c hv]
      simp [hnp, Nat.add_comm]
    · intro p hp
      rw [List.dropLast_concat] at hp
      obtain ⟨q, _, rfl⟩ := List.mem_map.mp hp
      rfl
    · intro p hp
      rw [List.getLast?_concat] at hp
      simp only [Option.mem_def, Option.some.injEq] at hp
      rw [← hp]
      rfl
  · rw [plansFor_create_ne db c d hc doc]
    exact hdb c

lemma inv_foldl : ∀ (ops : List (String × PlanDoc)) (db : DB),
    Inv db → Inv (ops.foldl commitStep db)
  | [], _, h => h
  | op :: ops, db, h =>
    inv_foldl ops (commitStep db op) (inv_step db h op.1 op.2)

lemma inv_applyCommits (ops : List (String × PlanDoc)) : Inv (applyCommits ops) :=
  inv_foldl ops emptyDB inv_empty

lemma current_rows_of_inv (db : DB) (hdb : Inv db) (c : String) :
    ((plansFor db c).filter (fun p => p.is_current)).length ≤ 1 ∧
    ∀ p ∈ (plansFor db c).filter (fun p => p.is_current),
      p.version = maxVersionFor db c := by
  obtain ⟨hv, hdrop, hlast⟩ := hdb c
  rcases List.eq_nil_or_concat (plansFor db c) with hnil | ⟨L, b, hL⟩
  · rw [hnil]
    exact ⟨Nat.zero_le 1, fun p hp => absurd hp (List.not_mem_nil p)⟩
  · rw [List.concat_eq_append] at hL
    have hbcur : b.is_current = true := by
      apply hlast
      rw [hL, List.getLast?_concat]
      rfl
    have hLfalse : ∀ p ∈ L, p.is_current = false := by
      intro p hp
      apply hdrop
      rw [hL, List.dropLast_concat]
      exact hp
    have hfilter : (plansFor db c).filter (fun p => p.is_current) = [b] := by
      rw [hL, List.filter_append]
      have h1 : L.filter (fun p => p.is_current) = [] := by
        rw [List.filter_eq_nil_iff]
        intro p hp
        simp [hLfalse p hp]
      rw [h1]
      simp [hbcur]
    have hbv : b.version = (plansFor db c).length := by
      have hv' := hv
      rw [hL] at hv'
      simp only [List.map_append, List.map_cons, List.map_nil,
        List.length_append, List.length_cons, List.length_nil,
        Nat.add_zero] at hv'
      rw [List.range'_concat] at hv'
      have hlen : (L.map (fun p => p.version)).length =
          (List.range' 1 L.length 1).length := by
        simp
      have h2 := (List.append_inj hv' hlen).2
      simp only [List.cons.injEq, Nat.one_mul] at h2
      rw [hL]
      simp only [List.length_append, List.length_cons, List.length_nil,
        Nat.add_zero]
      omega
    rw [hfilter]
    refine ⟨le_refl 1, ?_⟩
    intro p hp
    simp only [List.mem_singleton] at hp
    rw [hp, hbv, maxVersionFor_eq_length db c hv]

/-! ## C1 — single-current invariant -/

/-- C1: after any sequence of commits from the empty store, each client has
at most one current plan row; a current row carries the maximum version
number issued to that client; and a commit clears `is_current` on every
prior row of the client (in particular on the previously current one)
before the new current row is appended. -/
theorem single_current_invariant (ops : List (String × PlanDoc)) (c : String) :
    ((plansFor (applyCommits ops) c).filter (fun p => p.is_current)).length ≤ 1 ∧
    (∀ p ∈ (plansFor (applyCommits ops) c).filter (fun p => p.is_current),
      p.version = maxVersionFor (applyCommits ops) c) ∧
    (∀ (d : PlanDoc) p,
      p ∈ (plansFor (create_new_plan (applyCommits ops) c d).1 c).dropLast →
        p.is_current = false) := by
  obtain ⟨h1, h2⟩ := current_rows_of_inv (applyCommits ops) (inv_applyCommits ops) c
  refine ⟨h1, h2, ?_⟩
  intro d p hp
  rw [plansFor_create_eq, List.dropLast_concat] at hp
  obtain ⟨q, _, rfl⟩ := List.mem_map.mp hp
  rfl

/-- Witness for C1: after the three commits of `wOps`, the current row for
`c1` carries version 2, the maximum issued, and after one further commit the
old version-1 row is no longer current. -/
theorem single_current_invariant_witness :
    wRow.version = maxVersionFor (applyCommits wOps) "c1" ∧
    wRowOld.is_current = false :=
  ⟨(single_current_invariant wOps "c1").2.1 wRow (by decide),
   (single_current_invariant wOps "c1").2.2 examplePlan wRowOld (by decide)⟩

/-! ## C2 — gapless version numbering -/

/-- C2: for every client the stored version numbers after any sequence of
commits are exactly `1, 2, …, k` in commit order; the highest version in an
empty store reads as 0; and a further commit issues exactly
`previous_max + 1` to its new row. -/
theorem version_numbers_gapless (ops : List (String × PlanDoc)) (c : String) :
    (plansFor (applyCommits ops) c).map (fun p => p.version) =
      List.range' 1 (plansFor (applyCommits ops) c).length ∧
    maxVersionFor emptyDB c = 0 ∧
    ∀ d : PlanDoc, (create_new_plan (applyCommits ops) c d).2.version =
      maxVersionFor (applyCommits ops) c + 1 :=
  ⟨(inv_applyCommits ops c).1, rfl, fun _ => rfl⟩

end PlanWise
